import Mathlib

/-!
Verification development for the `action-collections` GitHub automation.

The JavaScript sources (`metaphor-action/index.js` and
`metaphor-action/scripts/storyGenerator.js`) are shallowly embedded below:
strings become `List Char`, the handler's API calls become an explicit list
of `Effect`s, and fallible operations are `Except` values.  The semantics of
`String.prototype.replace` with a global regex whose pattern is one of the
literal placeholder tokens is modelled faithfully, including the `$`-escape
expansion that JavaScript performs inside the replacement string
(`$$`, `$&`, dollar-backquote, dollar-quote).
-/

namespace ActionCollections

/-- Characters of a string literal. -/
def str (s : String) : List Char := s.data

/-- JavaScript `GetSubstitution` for a regex with no capture groups:
expands `$`-escapes occurring in the replacement text.  `matched` is the
matched substring, `before` the part of the subject before the match and
`after` the part after it.  `$$` yields a dollar, `$&` the match,
dollar-backquote the preceding text, dollar-quote the following text;
any other `$`-sequence (including `$n`, as there are no capture groups)
is literal. -/
def getSubstitution (matched before after : List Char) : List Char → List Char
  | [] => []
  | c :: t =>
    if c = '$' then
      match t with
      | [] => ['$']
      | d :: t2 =>
        if d = '$' then '$' :: getSubstitution matched before after t2
        else if d = '&' then matched ++ getSubstitution matched before after t2
        else if d = Char.ofNat 96 then before ++ getSubstitution matched before after t2
        else if d = Char.ofNat 39 then after ++ getSubstitution matched before after t2
        else '$' :: d :: getSubstitution matched before after t2
    else c :: getSubstitution matched before after t

/-- Worker for `replaceGlobal`: scans the subject left to right, replacing
every non-overlapping occurrence of `pat`; `pre` accumulates the part of the
original subject already consumed (needed by the `$`-escapes).  The fuel is
only a structural-recursion device; any fuel at least the subject's length
gives the same value. -/
def replaceGlobalAux (pat rep : List Char) : Nat → List Char → List Char → List Char
  | 0, _pre, s => s
  | fuel + 1, pre, s =>
    if pat ≠ [] ∧ pat.isPrefixOf s then
      getSubstitution pat pre (s.drop pat.length) rep ++
        replaceGlobalAux pat rep fuel (pre ++ pat) (s.drop pat.length)
    else
      match s with
      | [] => []
      | c :: s2 => c :: replaceGlobalAux pat rep fuel (pre ++ [c]) s2

/-- `s.replace(new RegExp(pat, 'g'), rep)` for a pattern that the regex
engine treats as a literal token (the five placeholder tokens are such:
their braces do not form quantifiers). -/
def replaceGlobal (s pat rep : List Char) : List Char :=
  replaceGlobalAux pat rep s.length [] s

/-- `pat` occurs as a contiguous substring of `s`. -/
def containsSub (s pat : List Char) : Bool :=
  pat.isPrefixOf s ||
    match s with
    | [] => false
    | _ :: s2 => containsSub s2 pat

/-- The fields of `issue.data` that the handler reads
(`title`, `user.login`, `created_at`, `body`, `labels[].name`,
`assignees[].login`, `state`). -/
structure IssueData where
  title : List Char
  login : List Char
  created_at : List Char
  body : List Char
  labels : List (List Char)
  assignees : List (List Char)
  state : List Char
deriving DecidableEq

/-- The constant `template` string of `createMetaphorFile`. -/
def storyTemplate : List Char :=
  str "---\nlayout: post\ntitle: {title}\nauthor: {author}\ncreated_at: {created_at}\nlanguage: {language}\n---\n\n{content}"

/-- The `placeholders` array of `createMetaphorFile`. -/
def placeholders : List (List Char) :=
  [str "{title}", str "{author}", str "{created_at}", str "{language}", str "{content}"]

/-- The `values` array of `createMetaphorFile`. -/
def contentValues (d : IssueData) (category : List Char) : List (List Char) :=
  [d.title, d.login, d.created_at, category, d.body]

/-- The `replacedTemplate` of `createMetaphorFile`: the fold
`placeholders.reduce((t, p, i) => t.replace(new RegExp(p, 'g'), values[i]), template)`. -/
def replacedTemplate (d : IssueData) (category : List Char) : List Char :=
  (placeholders.zip (contentValues d category)).foldl
    (fun t pv => replaceGlobal t pv.1 pv.2) storyTemplate

/-- Modelled from the spec: `utils/slugify` is required by
`storyGenerator.js` but its source is not part of the corpus; the spec
describes it as "lower-case, non-alphanumeric runs collapsed to a single
separator, leading/trailing separators trimmed", with
`slugify("Hello, World!") == "hello-world"` fixing `-` as the separator. -/
def slugify (s : List Char) : List Char :=
  List.intercalate ['-']
    ((List.splitOnP (fun c => !(Char.isAlphanum c)) (s.map Char.toLower)).filter
      (fun w => w ≠ []))

/-- UTF-8 encoding of a single scalar value (Node's `Buffer.from(string)`
uses UTF-8). -/
def utf8EncodeChar (c : Char) : List Nat :=
  let n := c.toNat
  if n < 0x80 then [n]
  else if n < 0x800 then
    [0xC0 ||| (n >>> 6), 0x80 ||| (n &&& 0x3F)]
  else if n < 0x10000 then
    [0xE0 ||| (n >>> 12), 0x80 ||| ((n >>> 6) &&& 0x3F), 0x80 ||| (n &&& 0x3F)]
  else
    [0xF0 ||| (n >>> 18), 0x80 ||| ((n >>> 12) &&& 0x3F),
      0x80 ||| ((n >>> 6) &&& 0x3F), 0x80 ||| (n &&& 0x3F)]

/-- UTF-8 encoding of a string. -/
def utf8Encode (s : List Char) : List Nat :=
  s.flatMap utf8EncodeChar

/-- The standard base64 alphabet. -/
def base64Alphabet : List Char :=
  str "ABCDEFGHIJKLMNOPQRSTUVWXYZabcdefghijklmnopqrstuvwxyz0123456789+/"

/-- The base64 digit for a 6-bit value. -/
def base64Digit (n : Nat) : Char := base64Alphabet.getD n 'A'

/-- Standard base64 with `=` padding, as produced by
`Buffer.from(...).toString('base64')`. -/
def base64Encode : List Nat → List Char
  | [] => []
  | [b1] =>
    [base64Digit (b1 >>> 2), base64Digit ((b1 &&& 3) <<< 4), '=', '=']
  | [b1, b2] =>
    [base64Digit (b1 >>> 2), base64Digit (((b1 &&& 3) <<< 4) ||| (b2 >>> 4)),
      base64Digit ((b2 &&& 15) <<< 2), '=']
  | b1 :: b2 :: b3 :: t =>
    [base64Digit (b1 >>> 2), base64Digit (((b1 &&& 3) <<< 4) ||| (b2 >>> 4)),
      base64Digit (((b2 &&& 15) <<< 2) ||| (b3 >>> 6)), base64Digit (b3 &&& 63)]
      ++ base64Encode t

/-- The commit path of `createMetaphorFile`:
`public/collections/stories/${category}/${slugify(issueData.title)}.md`. -/
def storyPath (category slug : List Char) : List Char :=
  str "public/collections/stories/" ++ category ++ str "/" ++ slug ++ str ".md"

/-- The commit message of `createMetaphorFile`. -/
def commitMessage (login : List Char) : List Char :=
  str "docs(generate): new metaphor from @" ++ login

/-- The `metaphors` table of the story handler, in declaration order. -/
def metaphors : List (List Char × List Char) :=
  [(str "linux", str "linux"),
   (str "cpp", str "cpp"),
   (str "css", str "css"),
   (str "golang", str "golang"),
   (str "javascript", str "javascript"),
   (str "java", str "java"),
   (str "maths", str "maths"),
   (str "python", str "python"),
   (str "php", str "php"),
   (str "physics", str "physics"),
   (str "ruby", str "ruby"),
   (str "rust", str "rust"),
   (str "zig", str "zig")]

/-- The per-category predicate
`labels.every(l => ['metaphore', category].includes(l))`. -/
def matchesCategory (category : List Char) (labels : List (List Char)) : Bool :=
  labels.all (fun l => l == str "metaphore" || l == category)

/-- `metaphors.some(([category, label]) => labels.every(...))`. -/
def isMetaphor (labels : List (List Char)) : Bool :=
  metaphors.any (fun p => matchesCategory p.1 labels)

/-- `metaphors.find(([category, label]) => labels.every(...))`. -/
def findMetaphor (labels : List (List Char)) : Option (List Char × List Char) :=
  metaphors.find? (fun p => matchesCategory p.1 labels)

/-- The fixed allow-list `['darkterminal', 'mkubdev']`. -/
def reviewerAllowList : List (List Char) :=
  [str "darkterminal", str "mkubdev"]

/-- `assignees.some(a => ['darkterminal', 'mkubdev'].includes(a.login))`. -/
def isReviewerPresence (assignees : List (List Char)) : Bool :=
  assignees.any (fun a => reviewerAllowList.contains a)

/-- An API request the story handler issues: either
`repos.createOrUpdateFileContents` (a file commit) or `issues.addLabels`. -/
inductive Effect where
  | commit (path content message : List Char)
  | addLabels (labels : List (List Char))
deriving DecidableEq

/-- The commit request issued by `createMetaphorFile` for category
parameter `category`. -/
def commitEffect (d : IssueData) (category : List Char) : Effect :=
  Effect.commit (storyPath category (slugify d.title))
    (base64Encode (utf8Encode (replacedTemplate d category)))
    (commitMessage d.login)

/-- The requests issued by the `module.exports` story handler on a
successfully fetched issue: when the issue is closed and an allow-listed
assignee is present, optionally one commit (when a category matched) and
always the `addLabels` request with `[...labels, 'published']`. -/
def storyGeneratorEffects (d : IssueData) : List Effect :=
  if d.state == str "closed" && isReviewerPresence d.assignees then
    (if isMetaphor d.labels then
      match findMetaphor d.labels with
      | some (_category, label) => [commitEffect d label]
      | none => []
    else []) ++ [Effect.addLabels (d.labels ++ [str "published"])]
  else []

/-- The whole `module.exports` handler, starting from the result of the
`issues.get` fetch.  Its `catch` logs and returns `false` (second
component `some false`); it never rethrows.  A normal completion returns
`undefined` (second component `none`). -/
def storyGeneratorRun (fetch : Except (List Char) IssueData) :
    List Effect × Option Bool :=
  match fetch with
  | Except.error _ => ([], some false)
  | Except.ok d => (storyGeneratorEffects d, none)

/-- The two handlers the router can invoke. -/
inductive Handler where
  | storyGenerator
  | greetingContributor
deriving DecidableEq

/-- Outcome of the `switch (context.payload.action)` in `index.js`:
which handler was invoked, and the message passed to `core.setFailed`
by the `default` branch, if any. -/
structure RouteResult where
  invoked : Option Handler
  failedMessage : Option (List Char)
deriving DecidableEq

/-- The event router of `index.js`. -/
def route (action : List Char) : RouteResult :=
  if action == str "closed" then ⟨some Handler.storyGenerator, none⟩
  else if action == str "opened" then ⟨some Handler.greetingContributor, none⟩
  else ⟨none, some (str "No action, skipping!")⟩

/-- Completion status of an Actions run. -/
inductive RunStatus where
  | success
  | failed (message : List Char)
deriving DecidableEq

/-- The `index.js` run on a `closed` or unknown action, given the result of
the issue fetch: the story handler's own `catch` swallows fetch errors, so
the top-level `catch` never fires on that path; only the `default` branch
marks the run failed. -/
def indexRun (action : List Char) (fetch : Except (List Char) IssueData) :
    List Effect × RunStatus :=
  if action == str "closed" then
    ((storyGeneratorRun fetch).1, RunStatus.success)
  else if action == str "opened" then ([], RunStatus.success)
  else ([], RunStatus.failed (str "No action, skipping!"))

/-- Modelled from the spec: the effect of the GitHub `addLabels` endpoint
on the issue's label list — the spec's External Interfaces section states
the issue's label list becomes `existingLabels ∪ {"published"}` and the
Data Model section states the label set is "ordered, duplicates
disallowed"; so each sent label is appended only when not already
present. -/
def applyAddLabels (current sent : List (List Char)) : List (List Char) :=
  sent.foldl (fun acc l => if acc.contains l then acc else acc ++ [l]) current

/-- `replaceGlobal` restarted in the middle of a pass: `pre` is the already
consumed part of the subject.  `replaceFrom pat rep [] s = replaceGlobal s pat rep`. -/
def replaceFrom (pat rep pre s : List Char) : List Char :=
  replaceGlobalAux pat rep s.length pre s

/-- The fully substituted story document for clean field values: the
front-matter block with the five fixed keys, a blank line, then the body. -/
def renderedDoc (title author created lang body : List Char) : List Char :=
  str "---\nlayout: post\ntitle: " ++ title ++ str "\nauthor: " ++ author ++
    str "\ncreated_at: " ++ created ++ str "\nlanguage: " ++ lang ++
    str "\n---\n\n" ++ body

theorem getSubstitution_eq_self (m b a : List Char) {rep : List Char}
    (h : '$' ∉ rep) : getSubstitution m b a rep = rep := by
  induction rep with
  | nil => rfl
  | cons c t ih =>
    have hc : c ≠ '$' := by
      rintro rfl; exact h (List.mem_cons_self _ _)
    have ht : '$' ∉ t := fun hm => h (List.mem_cons_of_mem _ hm)
    rw [getSubstitution.eq_def]
    simp [hc, ih ht]

theorem replaceGlobalAux_nil (pat rep : List Char) (fuel : Nat)
    (pre : List Char) : replaceGlobalAux pat rep fuel pre [] = [] := by
  cases fuel with
  | zero => rfl
  | succ g =>
    cases pat with
    | nil => rw [replaceGlobalAux]; simp
    | cons p pt => rw [replaceGlobalAux]; simp

theorem replaceGlobalAux_fuel {pat rep : List Char} :
    ∀ {f1 f2 : Nat} {pre s : List Char}, s.length ≤ f1 → s.length ≤ f2 →
      replaceGlobalAux pat rep f1 pre s = replaceGlobalAux pat rep f2 pre s := by
  intro f1
  induction f1 with
  | zero =>
    intro f2 pre s h1 _
    have hs : s = [] := List.eq_nil_of_length_eq_zero (Nat.le_zero.mp h1)
    subst hs
    rw [replaceGlobalAux_nil, replaceGlobalAux_nil]
  | succ g ih =>
    intro f2 pre s h1 h2
    cases f2 with
    | zero =>
      have hs : s = [] := List.eq_nil_of_length_eq_zero (Nat.le_zero.mp h2)
      subst hs
      rw [replaceGlobalAux_nil, replaceGlobalAux_nil]
    | succ k =>
      by_cases hcond : pat ≠ [] ∧ pat.isPrefixOf s
      · have hplen : 1 ≤ pat.length := by
          cases pat with
          | nil => exact absurd rfl hcond.1
          | cons p pt => simp
        have hslen : pat.length ≤ s.length :=
          (List.isPrefixOf_iff_prefix.mp hcond.2).length_le
        simp only [replaceGlobalAux, if_pos hcond]
        congr 1
        exact ih (by simp only [List.length_drop]; omega)
          (by simp only [List.length_drop]; omega)
      · cases s with
        | nil => rw [replaceGlobalAux_nil, replaceGlobalAux_nil]
        | cons c s2 =>
          simp only [replaceGlobalAux, if_neg hcond]
          simp only [List.length_cons] at h1 h2
          congr 1
          apply ih <;> omega

theorem replaceFrom_nil (pat rep pre : List Char) :
    replaceFrom pat rep pre [] = [] :=
  replaceGlobalAux_nil ..

theorem replaceFrom_matched {pat s : List Char} (rep pre : List Char)
    (hpat : pat ≠ []) (hpre : pat.isPrefixOf s) :
    replaceFrom pat rep pre s =
      getSubstitution pat pre (s.drop pat.length) rep ++
        replaceFrom pat rep (pre ++ pat) (s.drop pat.length) := by
  have hplen : 1 ≤ pat.length := by
    cases pat with
    | nil => exact absurd rfl hpat
    | cons p pt => simp
  obtain ⟨c, s2, rfl⟩ : ∃ c s2, s = c :: s2 := by
    cases s with
    | nil =>
      exfalso
      cases pat with
      | nil => exact hpat rfl
      | cons p pt => simp at hpre
    | cons c s2 => exact ⟨c, s2, rfl⟩
  unfold replaceFrom
  simp only [List.length_cons, replaceGlobalAux, if_pos (And.intro hpat hpre)]
  congr 1
  have hslen : pat.length ≤ (c :: s2).length :=
    (List.isPrefixOf_iff_prefix.mp hpre).length_le
  have hd : ((c :: s2).drop pat.length).length ≤ s2.length := by
    simp only [List.length_drop, List.length_cons]
    simp only [List.length_cons] at hslen
    omega
  exact replaceGlobalAux_fuel hd (le_refl _)

theorem replaceFrom_skip {pat : List Char} (rep pre : List Char)
    {c : Char} {s : List Char} (hnp : ¬ pat.isPrefixOf (c :: s)) :
    replaceFrom pat rep pre (c :: s) =
      c :: replaceFrom pat rep (pre ++ [c]) s := by
  unfold replaceFrom
  simp only [List.length_cons, replaceGlobalAux]
  rw [if_neg (fun h => hnp h.2)]

theorem not_isPrefixOf_of_head {p0 c : Char} {pt s : List Char} (hc : c ≠ p0) :
    ¬ (p0 :: pt).isPrefixOf (c :: s) := by
  intro h
  rw [List.isPrefixOf_cons₂] at h
  simp only [Bool.and_eq_true, beq_iff_eq] at h
  exact hc h.1.symm

theorem replaceFrom_clean_append {p0 : Char} {pt : List Char} (rep : List Char) :
    ∀ {a : List Char}, p0 ∉ a → ∀ pre s,
      replaceFrom (p0 :: pt) rep pre (a ++ s) =
        a ++ replaceFrom (p0 :: pt) rep (pre ++ a) s := by
  intro a
  induction a with
  | nil => intro _ pre s; simp
  | cons c a2 ih =>
    intro ha pre s
    have hc : c ≠ p0 := fun h => ha (h ▸ List.mem_cons_self _ _)
    have ha2 : p0 ∉ a2 := fun h => ha (List.mem_cons_of_mem _ h)
    rw [List.cons_append, replaceFrom_skip rep pre (not_isPrefixOf_of_head hc),
      ih ha2]
    simp [List.append_assoc]

theorem replaceFrom_append_matched {pat : List Char} (rep pre b : List Char)
    (hpat : pat ≠ []) :
    replaceFrom pat rep pre (pat ++ b) =
      getSubstitution pat pre b rep ++ replaceFrom pat rep (pre ++ pat) b := by
  have hpre : pat.isPrefixOf (pat ++ b) :=
    List.isPrefixOf_iff_prefix.mpr (List.prefix_append _ _)
  rw [replaceFrom_matched rep pre hpat hpre, List.drop_left]

theorem replaceFrom_of_not_containsSub {pat : List Char} (rep : List Char) :
    ∀ {s : List Char}, containsSub s pat = false → ∀ pre,
      replaceFrom pat rep pre s = s := by
  intro s
  induction s with
  | nil => intro _ pre; exact replaceFrom_nil ..
  | cons c s2 ih =>
    intro h pre
    rw [containsSub] at h
    simp only [Bool.or_eq_false_iff] at h
    rw [replaceFrom_skip rep pre (by simp [h.1]), ih h.2]

theorem containsSub_eq_false_of_not_mem {p0 : Char} {pt : List Char} :
    ∀ {s : List Char}, p0 ∉ s → containsSub s (p0 :: pt) = false := by
  intro s
  induction s with
  | nil => intro _; rfl
  | cons c s2 ih =>
    intro h
    have hc : c ≠ p0 := fun hh => h (hh ▸ List.mem_cons_self _ _)
    have h2 : p0 ∉ s2 := fun hh => h (List.mem_cons_of_mem _ hh)
    rw [containsSub]
    simp [not_isPrefixOf_of_head hc, ih h2]

theorem replaceGlobal_eq_replaceFrom (s pat rep : List Char) :
    replaceGlobal s pat rep = replaceFrom pat rep [] s := rfl

/-- One pass of the renderer's fold over a subject `s = x ++ pat ++ b` where
the already-substituted part `x` cannot contain the token (it has no
brace), the replacement has no `$`-escape, and the token does not occur in
the remainder `b`: the pass substitutes the token exactly once. -/
theorem replaceGlobal_pass (s x pat rep b : List Char) (p0 : Char)
    (pt : List Char) (hpat : pat = p0 :: pt) (hs : s = x ++ (pat ++ b))
    (hx : p0 ∉ x) (hrep : '$' ∉ rep) (hb : containsSub b pat = false) :
    replaceGlobal s pat rep = x ++ rep ++ b := by
  subst hpat
  subst hs
  rw [replaceGlobal_eq_replaceFrom, replaceFrom_clean_append rep hx,
    replaceFrom_append_matched rep _ b (by simp),
    getSubstitution_eq_self _ _ _ hrep,
    replaceFrom_of_not_containsSub rep hb]
  simp [List.append_assoc]

theorem replacedTemplate_unfold (d : IssueData) (category : List Char) :
    replacedTemplate d category =
      replaceGlobal (replaceGlobal (replaceGlobal (replaceGlobal (replaceGlobal
        storyTemplate (str "{title}") d.title) (str "{author}") d.login)
        (str "{created_at}") d.created_at) (str "{language}") category)
        (str "{content}") d.body := by
  simp only [replacedTemplate, placeholders, contentValues, List.zip_cons_cons,
    List.zip_nil_right, List.foldl_cons, List.foldl_nil]

/-- For field values free of braces and dollar signs, the renderer's fold
substitutes each placeholder exactly once with the original field value. -/
theorem replacedTemplate_clean (d : IssueData) (category : List Char)
    (ht : '{' ∉ d.title) (hl : '{' ∉ d.login) (hcr : '{' ∉ d.created_at)
    (hg : '{' ∉ category) (_hb : '{' ∉ d.body)
    (st : '$' ∉ d.title) (sl : '$' ∉ d.login) (scr : '$' ∉ d.created_at)
    (sg : '$' ∉ category) (sb : '$' ∉ d.body) :
    replacedTemplate d category =
      renderedDoc d.title d.login d.created_at category d.body := by
  have e1 : replaceGlobal storyTemplate (str "{title}") d.title =
      str "---\nlayout: post\ntitle: " ++ d.title ++
        str "\nauthor: {author}\ncreated_at: {created_at}\nlanguage: {language}\n---\n\n{content}" :=
    replaceGlobal_pass _ _ _ _ _ '{' (str "title\x7d") (by decide) (by decide)
      (by decide) st (by decide)
  have e2 : replaceGlobal (str "---\nlayout: post\ntitle: " ++ d.title ++
        str "\nauthor: {author}\ncreated_at: {created_at}\nlanguage: {language}\n---\n\n{content}")
      (str "{author}") d.login =
      str "---\nlayout: post\ntitle: " ++ d.title ++ str "\nauthor: " ++ d.login ++
        str "\ncreated_at: {created_at}\nlanguage: {language}\n---\n\n{content}" :=
    replaceGlobal_pass _ _ _ _ _ '{' (str "author\x7d") (by decide)
      (by
        rw [show str "\nauthor: {author}\ncreated_at: {created_at}\nlanguage: {language}\n---\n\n{content}" =
          str "\nauthor: " ++ (str "{author}" ++
            str "\ncreated_at: {created_at}\nlanguage: {language}\n---\n\n{content}") from by decide]
        simp [List.append_assoc])
      (by
        simp only [List.mem_append, not_or]
        exact ⟨⟨by decide, ht⟩, by decide⟩)
      sl (by decide)
  have e3 : replaceGlobal (str "---\nlayout: post\ntitle: " ++ d.title ++
        str "\nauthor: " ++ d.login ++
        str "\ncreated_at: {created_at}\nlanguage: {language}\n---\n\n{content}")
      (str "{created_at}") d.created_at =
      str "---\nlayout: post\ntitle: " ++ d.title ++ str "\nauthor: " ++ d.login ++
        str "\ncreated_at: " ++ d.created_at ++
        str "\nlanguage: {language}\n---\n\n{content}" :=
    replaceGlobal_pass _ _ _ _ _ '{' (str "created_at\x7d") (by decide)
      (by
        rw [show str "\ncreated_at: {created_at}\nlanguage: {language}\n---\n\n{content}" =
          str "\ncreated_at: " ++ (str "{created_at}" ++
            str "\nlanguage: {language}\n---\n\n{content}") from by decide]
        simp [List.append_assoc])
      (by
        simp only [List.mem_append, not_or]
        exact ⟨⟨⟨⟨by decide, ht⟩, by decide⟩, hl⟩, by decide⟩)
      scr (by decide)
  have e4 : replaceGlobal (str "---\nlayout: post\ntitle: " ++ d.title ++
        str "\nauthor: " ++ d.login ++ str "\ncreated_at: " ++ d.created_at ++
        str "\nlanguage: {language}\n---\n\n{content}")
      (str "{language}") category =
      str "---\nlayout: post\ntitle: " ++ d.title ++ str "\nauthor: " ++ d.login ++
        str "\ncreated_at: " ++ d.created_at ++ str "\nlanguage: " ++ category ++
        str "\n---\n\n{content}" :=
    replaceGlobal_pass _ _ _ _ _ '{' (str "language\x7d") (by decide)
      (by
        rw [show str "\nlanguage: {language}\n---\n\n{content}" =
          str "\nlanguage: " ++ (str "{language}" ++ str "\n---\n\n{content}") from by decide]
        simp [List.append_assoc])
      (by
        simp only [List.mem_append, not_or]
        exact ⟨⟨⟨⟨⟨⟨by decide, ht⟩, by decide⟩, hl⟩, by decide⟩, hcr⟩, by decide⟩)
      sg (by decide)
  have e5 : replaceGlobal (str "---\nlayout: post\ntitle: " ++ d.title ++
        str "\nauthor: " ++ d.login ++ str "\ncreated_at: " ++ d.created_at ++
        str "\nlanguage: " ++ category ++ str "\n---\n\n{content}")
      (str "{content}") d.body =
      str "---\nlayout: post\ntitle: " ++ d.title ++ str "\nauthor: " ++ d.login ++
        str "\ncreated_at: " ++ d.created_at ++ str "\nlanguage: " ++ category ++
        str "\n---\n\n" ++ d.body ++ [] :=
    replaceGlobal_pass _ _ _ _ _ '{' (str "content\x7d") (by decide)
      (by
        rw [show str "\n---\n\n{content}" =
          str "\n---\n\n" ++ (str "{content}" ++ ([] : List Char)) from by decide]
        simp [List.append_assoc])
      (by
        simp only [List.mem_append, not_or]
        exact ⟨⟨⟨⟨⟨⟨⟨⟨by decide, ht⟩, by decide⟩, hl⟩, by decide⟩, hcr⟩, by decide⟩, hg⟩,
          by decide⟩)
      sb (by decide)
  rw [replacedTemplate_unfold, e1, e2, e3, e4, e5, renderedDoc]
  simp

/-- C3 counterexample: with title `A{content}B` and body `BODY`, the
rendered document's title line reads `title: ABODYB` — the `{content}`
token inside the title value was replaced by the body field — and the
original title text `A{content}B` does not occur in the output, refuting
the claim that a placeholder token inside a field value always appears
verbatim and is never substituted by another field's value. -/
theorem claimC3_counterexample :
    replacedTemplate
        ⟨str "A{content}B", str "u", str "t", str "BODY", [], [], str "closed"⟩
        (str "css") =
      str "---\nlayout: post\ntitle: ABODYB\nauthor: u\ncreated_at: t\nlanguage: css\n---\n\nBODY" ∧
    containsSub
        (replacedTemplate
          ⟨str "A{content}B", str "u", str "t", str "BODY", [], [], str "closed"⟩
          (str "css"))
        (str "A{content}B") = false := by
  constructor
  · decide
  · decide

/-- C3 (amended): substitution is one sequential regex replace per
placeholder over the progressively mutated document, so a token of a
later-processed placeholder occurring inside a field value is replaced by
that later field's value and `$`-sequences in values are interpreted as
regex replacement escapes; however, for field values containing neither
`{` nor `$` each of the five placeholder tokens is substituted exactly
once against the original field values. -/
theorem claimC3 (d : IssueData) (category : List Char)
    (ht : '{' ∉ d.title) (hl : '{' ∉ d.login) (hcr : '{' ∉ d.created_at)
    (hg : '{' ∉ category) (hb : '{' ∉ d.body)
    (st : '$' ∉ d.title) (sl : '$' ∉ d.login) (scr : '$' ∉ d.created_at)
    (sg : '$' ∉ category) (sb : '$' ∉ d.body) :
    replacedTemplate d category =
      renderedDoc d.title d.login d.created_at category d.body :=
  replacedTemplate_clean d category ht hl hcr hg hb st sl scr sg sb

/-- Witness for C3 at a concrete clean quintuple. -/
theorem claimC3_witness :
    replacedTemplate
        ⟨str "My Story", str "alice", str "2024-06-01", str "Once upon a time.",
          [], [], str "closed"⟩ (str "rust") =
      renderedDoc (str "My Story") (str "alice") (str "2024-06-01") (str "rust")
        (str "Once upon a time.") :=
  claimC3 ⟨str "My Story", str "alice", str "2024-06-01", str "Once upon a time.",
      [], [], str "closed"⟩ (str "rust")
    (by decide) (by decide) (by decide) (by decide) (by decide)
    (by decide) (by decide) (by decide) (by decide) (by decide)

/-- C4 counterexample: the value `$&` contains no `{` character, yet with
it as title the rendered document still contains the `{title}` token —
the regex replacement expands `$&` to the matched token — refuting the
claim that brace-free values always leave zero placeholder tokens. -/
theorem claimC4_counterexample :
    '{' ∉ str "$&" ∧
    containsSub
        (replacedTemplate ⟨str "$&", str "u", str "t", str "BODY", [], [], str "closed"⟩
          (str "css"))
        (str "{title}") = true := by
  constructor
  · decide
  · decide

/-- C4 (amended): for input quintuples whose five values each contain no
`{` and no `$` character, the rendered document contains zero occurrences
of the five placeholder tokens. -/
theorem claimC4 (d : IssueData) (category : List Char)
    (ht : '{' ∉ d.title) (hl : '{' ∉ d.login) (hcr : '{' ∉ d.created_at)
    (hg : '{' ∉ category) (hb : '{' ∉ d.body)
    (st : '$' ∉ d.title) (sl : '$' ∉ d.login) (scr : '$' ∉ d.created_at)
    (sg : '$' ∉ category) (sb : '$' ∉ d.body) :
    ∀ tok ∈ placeholders, containsSub (replacedTemplate d category) tok = false := by
  intro tok htok
  have hdoc : '{' ∉ renderedDoc d.title d.login d.created_at category d.body := by
    simp only [renderedDoc, List.mem_append, not_or]
    exact ⟨⟨⟨⟨⟨⟨⟨⟨⟨by decide, ht⟩, by decide⟩, hl⟩, by decide⟩, hcr⟩, by decide⟩,
      hg⟩, by decide⟩, hb⟩
  rw [replacedTemplate_clean d category ht hl hcr hg hb st sl scr sg sb]
  simp only [placeholders, List.mem_cons, List.not_mem_nil, or_false] at htok
  rcases htok with rfl | rfl | rfl | rfl | rfl
  · rw [show str "{title}" = '{' :: str "title\x7d" from by decide]
    exact containsSub_eq_false_of_not_mem hdoc
  · rw [show str "{author}" = '{' :: str "author\x7d" from by decide]
    exact containsSub_eq_false_of_not_mem hdoc
  · rw [show str "{created_at}" = '{' :: str "created_at\x7d" from by decide]
    exact containsSub_eq_false_of_not_mem hdoc
  · rw [show str "{language}" = '{' :: str "language\x7d" from by decide]
    exact containsSub_eq_false_of_not_mem hdoc
  · rw [show str "{content}" = '{' :: str "content\x7d" from by decide]
    exact containsSub_eq_false_of_not_mem hdoc

/-- Witness for C4 at a concrete clean quintuple and the `{title}` token. -/
theorem claimC4_witness :
    containsSub
        (replacedTemplate
          ⟨str "My Story", str "alice", str "2024-06-01", str "Once upon a time.",
            [], [], str "closed"⟩ (str "rust"))
        (str "{title}") = false :=
  claimC4 ⟨str "My Story", str "alice", str "2024-06-01", str "Once upon a time.",
      [], [], str "closed"⟩ (str "rust")
    (by decide) (by decide) (by decide) (by decide) (by decide)
    (by decide) (by decide) (by decide) (by decide) (by decide)
    (str "{title}") (by decide)

theorem matchesCategory_false {c l : List Char} {labels : List (List Char)}
    (hl : l ∈ labels) (h1 : l ≠ str "metaphore") (h2 : l ≠ c) :
    matchesCategory c labels = false := by
  rw [matchesCategory]
  rw [List.all_eq_false]
  exact ⟨l, hl, by simp [h1, h2]⟩

theorem matchesCategory_true {c : List Char} {labels : List (List Char)}
    (hall : ∀ l ∈ labels, l = str "metaphore" ∨ l = c) :
    matchesCategory c labels = true := by
  rw [matchesCategory]
  rw [List.all_eq_true]
  intro l hl
  rcases hall l hl with h | h <;> simp [h]

theorem find?_diag_eq {labels : List (List Char)} {X : List Char} :
    ∀ {table : List (List Char × List Char)},
      (∀ p ∈ table, p.2 = p.1) → (X, X) ∈ table →
      X ∈ labels → X ≠ str "metaphore" →
      (∀ l ∈ labels, l = str "metaphore" ∨ l = X) →
      table.find? (fun p => matchesCategory p.1 labels) = some (X, X) := by
  intro table
  induction table with
  | nil => intro _ hmem; cases hmem
  | cons p t ih =>
    intro hdiag hmem hX hXm hall
    by_cases hp : p.1 = X
    · have hp2 : p.2 = p.1 := hdiag p (List.mem_cons_self _ _)
      have hpX : p = (X, X) := by
        obtain ⟨p1, p2⟩ := p
        simp only at hp hp2
        rw [hp2, hp]
      rw [List.find?_cons_of_pos _ (by rw [hp]; exact matchesCategory_true hall),
        hpX]
    · have hf : matchesCategory p.1 labels = false :=
        matchesCategory_false hX hXm (fun h => hp h.symm)
      rw [List.find?_cons_of_neg _ (by simp [hf])]
      have hmem2 : (X, X) ∈ t := by
        rcases List.mem_cons.mp hmem with h | h
        · exact absurd (congrArg Prod.fst h.symm) hp
        · exact h
      exact ih (fun q hq => hdiag q (List.mem_cons_of_mem _ hq)) hmem2 hX hXm hall

theorem findMetaphor_eq_none {labels : List (List Char)}
    (h : ∀ p ∈ metaphors, ∃ l ∈ labels, l ≠ str "metaphore" ∧ l ≠ p.1) :
    findMetaphor labels = none := by
  rw [findMetaphor]
  rw [List.find?_eq_none]
  intro p hp
  obtain ⟨l, hl, h1, h2⟩ := h p hp
  simp [matchesCategory_false hl h1 h2]

theorem isMetaphor_eq_false {labels : List (List Char)}
    (h : findMetaphor labels = none) : isMetaphor labels = false := by
  rw [isMetaphor]
  rw [List.any_eq_false]
  intro p hp
  have := List.find?_eq_none.mp h p hp
  simpa using this

theorem commit_not_mem_of_no_match (d : IssueData)
    (h : findMetaphor d.labels = none) :
    ∀ path content msg, Effect.commit path content msg ∉ storyGeneratorEffects d := by
  intro path content msg
  rw [storyGeneratorEffects]
  by_cases hcl : (d.state == str "closed" && isReviewerPresence d.assignees) = true
  · rw [if_pos hcl, isMetaphor_eq_false h]
    simp
  · rw [if_neg hcl]
    simp

/-- C1 (amended): the classifier's per-category test is a subset check,
so any label set all of whose labels lie in a pair (metaphore, X) — the
exact pair, but also proper subsets such as a lone category label —
matches, returning the first such pair in declaration order; only a label
set containing some label outside every pair yields no match, and then no
file-commit request is issued. -/
theorem claimC1 :
    (∀ (labels : List (List Char)) (X : List Char), (X, X) ∈ metaphors →
        X ∈ labels → X ≠ str "metaphore" →
        (∀ l ∈ labels, l = str "metaphore" ∨ l = X) →
        findMetaphor labels = some (X, X)) ∧
    (∀ labels : List (List Char),
        (∀ p ∈ metaphors, ∃ l ∈ labels, l ≠ str "metaphore" ∧ l ≠ p.1) →
        findMetaphor labels = none) ∧
    (∀ d : IssueData, findMetaphor d.labels = none →
        ∀ path content msg,
          Effect.commit path content msg ∉ storyGeneratorEffects d) := by
  refine ⟨?_, ?_, ?_⟩
  · intro labels X hmem hX hXm hall
    exact find?_diag_eq (by decide) hmem hX hXm hall
  · intro labels h
    exact findMetaphor_eq_none h
  · intro d h
    exact commit_not_mem_of_no_match d h

/-- C1 counterexample: the singleton label set `{"css"}` lacks the
required `metaphore` tag, yet the classifier matches it to `css` —
refuting "for every other label set (… missing metaphore tag …) the
classifier returns no match". -/
theorem claimC1_counterexample :
    findMetaphor [str "css"] = some (str "css", str "css") := by
  decide

/-- Witness for C1 at the exact label set `{metaphore, rust}`. -/
theorem claimC1_witness :
    findMetaphor [str "metaphore", str "rust"] = some (str "rust", str "rust") :=
  claimC1.1 [str "metaphore", str "rust"] (str "rust") (by decide) (by decide)
    (by decide) (by decide)

/-- C10 (confirmed): ambiguous label sets — the empty set and the lone
`metaphore` tag satisfy every category's predicate — are resolved to the
first entry of the declaration-ordered table, `linux`; in general any
successful classification is the first table entry whose predicate holds. -/
theorem claimC10 :
    findMetaphor [] = some (str "linux", str "linux") ∧
    findMetaphor [str "metaphore"] = some (str "linux", str "linux") ∧
    (∀ (labels : List (List Char)) (p : List Char × List Char),
        findMetaphor labels = some p →
        matchesCategory p.1 labels = true ∧
        ∃ t1 t2, metaphors = t1 ++ p :: t2 ∧
          ∀ q ∈ t1, matchesCategory q.1 labels = false) := by
  refine ⟨by decide, by decide, ?_⟩
  intro labels p h
  rw [findMetaphor] at h
  obtain ⟨hp, t1, t2, htab, hbefore⟩ := List.find?_eq_some.mp h
  exact ⟨hp, t1, t2, htab, fun q hq => by simpa using hbefore q hq⟩

/-- Witness for C10's universally quantified conjunct at the label set
`{zig}`. -/
theorem claimC10_witness :
    matchesCategory (str "zig") [str "zig"] = true ∧
    ∃ t1 t2, metaphors = t1 ++ (str "zig", str "zig") :: t2 ∧
      ∀ q ∈ t1, matchesCategory q.1 [str "zig"] = false :=
  claimC10.2.2 [str "zig"] (str "zig", str "zig") (by decide)

/-- C2 (confirmed): when no assignee is on the reviewer allow-list the
story handler issues no requests at all — zero file commits and zero
label mutations — whatever the state and labels. -/
theorem claimC2 (d : IssueData)
    (h : ∀ a ∈ d.assignees, a ∉ reviewerAllowList) :
    storyGeneratorEffects d = [] := by
  have hrev : isReviewerPresence d.assignees = false := by
    rw [isReviewerPresence]
    rw [List.any_eq_false]
    intro a ha
    simpa using h a ha
  rw [storyGeneratorEffects]
  rw [if_neg (by simp [hrev])]

/-- Witness for C2: a closed metaphor issue assigned only to `someoneelse`
produces no requests. -/
theorem claimC2_witness :
    storyGeneratorEffects
      ⟨str "T", str "u", str "2024-01-01", str "b",
        [str "metaphore", str "rust"], [str "someoneelse"], str "closed"⟩ = [] :=
  claimC2 _ (by decide)

/-- C7 evidence: a closed issue assigned to an allow-listed reviewer whose
label set `{bug}` matches no category still gets the label mutation
`addLabels [bug, published]` — the handler sends it outside the
`isMetaphor` guard — while issuing no commit. -/
theorem claimC7_evidence :
    storyGeneratorEffects
      ⟨str "T", str "u", str "2024-01-01", str "b", [str "bug"],
        [str "darkterminal"], str "closed"⟩ =
      [Effect.addLabels [str "bug", str "published"]] := by
  decide

theorem count_eq_one_of_nodup_mem {α : Type} [BEq α] [LawfulBEq α] {a : α} :
    ∀ {L : List α}, L.Nodup → a ∈ L → L.count a = 1 := by
  intro L
  induction L with
  | nil => intro _ hm; cases hm
  | cons b t ih =>
    intro hnd hm
    rw [List.nodup_cons] at hnd
    rw [List.count_cons]
    rcases List.mem_cons.mp hm with rfl | hmt
    · have : t.count a = 0 := List.count_eq_zero.mpr hnd.1
      simp [this]
    · have hab : ¬ b = a := by
        rintro rfl
        exact hnd.1 hmt
      simp [ih hnd.2 hmt, hab]

theorem applyAddLabels_cons (c : List (List Char)) (l : List Char)
    (s : List (List Char)) :
    applyAddLabels c (l :: s) =
      applyAddLabels (if c.contains l then c else c ++ [l]) s := by
  rw [applyAddLabels, applyAddLabels, List.foldl_cons]

theorem mem_applyAddLabels {x : List Char} :
    ∀ {s c : List (List Char)}, x ∈ applyAddLabels c s ↔ x ∈ c ∨ x ∈ s := by
  intro s
  induction s with
  | nil => intro c; rw [applyAddLabels]; simp
  | cons l s2 ih =>
    intro c
    rw [applyAddLabels_cons]
    by_cases hcl : c.contains l = true
    · rw [if_pos hcl, ih]
      have hlc : l ∈ c := List.mem_of_elem_eq_true hcl
      rw [List.mem_cons]
      constructor
      · rintro (h | h)
        · exact Or.inl h
        · exact Or.inr (Or.inr h)
      · rintro (h | rfl | h)
        · exact Or.inl h
        · exact Or.inl hlc
        · exact Or.inr h
    · rw [if_neg hcl, ih]
      simp [List.mem_append, List.mem_cons, or_assoc]

theorem applyAddLabels_eq_self {c : List (List Char)} :
    ∀ {s : List (List Char)}, (∀ l ∈ s, l ∈ c) → applyAddLabels c s = c := by
  intro s
  induction s with
  | nil => intro _; rfl
  | cons l s2 ih =>
    intro h
    have hlc : c.contains l = true :=
      List.elem_eq_true_of_mem (h l (List.mem_cons_self _ _))
    rw [applyAddLabels_cons, if_pos hlc]
    exact ih (fun x hx => h x (List.mem_cons_of_mem _ hx))

theorem nodup_applyAddLabels :
    ∀ {s c : List (List Char)}, c.Nodup → (applyAddLabels c s).Nodup := by
  intro s
  induction s with
  | nil => intro c h; exact h
  | cons l s2 ih =>
    intro c h
    rw [applyAddLabels_cons]
    by_cases hcl : c.contains l = true
    · rw [if_pos hcl]; exact ih h
    · rw [if_neg hcl]
      apply ih
      rw [List.nodup_append]
      refine ⟨h, List.nodup_singleton _, ?_⟩
      intro x hx hxl
      rw [List.mem_singleton] at hxl
      subst hxl
      exact hcl (List.elem_eq_true_of_mem hx)

/-- C6 (confirmed): on a closed, reviewer-assigned issue the handler sends
`addLabels` with `[...labels, 'published']`; under the platform's add-only
union semantics the resulting label list contains exactly the previous
labels plus `published`, a second run leaves it unchanged, and (the label
list being duplicate-free) the sentinel occurs exactly once. -/
theorem claimC6 (d : IssueData) (hstate : d.state = str "closed")
    (hrev : isReviewerPresence d.assignees = true) :
    Effect.addLabels (d.labels ++ [str "published"]) ∈ storyGeneratorEffects d ∧
    (∀ x, x ∈ applyAddLabels d.labels (d.labels ++ [str "published"]) ↔
      x ∈ d.labels ∨ x = str "published") ∧
    applyAddLabels (applyAddLabels d.labels (d.labels ++ [str "published"]))
        (applyAddLabels d.labels (d.labels ++ [str "published"]) ++
          [str "published"]) =
      applyAddLabels d.labels (d.labels ++ [str "published"]) ∧
    (d.labels.Nodup →
      (applyAddLabels d.labels (d.labels ++ [str "published"])).count
        (str "published") = 1) := by
  have hpub : str "published" ∈ applyAddLabels d.labels
      (d.labels ++ [str "published"]) := by
    rw [mem_applyAddLabels]
    exact Or.inr (List.mem_append_right _ (List.mem_singleton.mpr rfl))
  refine ⟨?_, ?_, ?_, ?_⟩
  · rw [storyGeneratorEffects, if_pos (by simp [hstate, hrev])]
    exact List.mem_append_right _ (List.mem_singleton.mpr rfl)
  · intro x
    rw [mem_applyAddLabels]
    simp only [List.mem_append, List.mem_singleton]
    tauto
  · apply applyAddLabels_eq_self
    intro l hl
    rcases List.mem_append.mp hl with h | h
    · exact h
    · rw [List.mem_singleton] at h
      subst h
      exact hpub
  · intro hnd
    exact count_eq_one_of_nodup_mem (nodup_applyAddLabels hnd) hpub

/-- Witness for C6 at a concrete closed, reviewer-assigned issue. -/
theorem claimC6_witness :
    Effect.addLabels ([str "metaphore", str "rust"] ++ [str "published"]) ∈
      storyGeneratorEffects
        ⟨str "T", str "u", str "2024-01-01", str "b",
          [str "metaphore", str "rust"], [str "darkterminal"], str "closed"⟩ ∧
    (∀ x, x ∈ applyAddLabels [str "metaphore", str "rust"]
        ([str "metaphore", str "rust"] ++ [str "published"]) ↔
      x ∈ [str "metaphore", str "rust"] ∨ x = str "published") ∧
    applyAddLabels
        (applyAddLabels [str "metaphore", str "rust"]
          ([str "metaphore", str "rust"] ++ [str "published"]))
        (applyAddLabels [str "metaphore", str "rust"]
          ([str "metaphore", str "rust"] ++ [str "published"]) ++
          [str "published"]) =
      applyAddLabels [str "metaphore", str "rust"]
        ([str "metaphore", str "rust"] ++ [str "published"]) ∧
    (List.Nodup [str "metaphore", str "rust"] →
      (applyAddLabels [str "metaphore", str "rust"]
          ([str "metaphore", str "rust"] ++ [str "published"])).count
        (str "published") = 1) :=
  claimC6
    ⟨str "T", str "u", str "2024-01-01", str "b",
      [str "metaphore", str "rust"], [str "darkterminal"], str "closed"⟩
    rfl (by decide)

theorem base64Encode_length : ∀ bs : List Nat,
    (base64Encode bs).length = 4 * ((bs.length + 2) / 3) := by
  intro bs
  induction bs using base64Encode.induct with
  | case1 => rfl
  | case2 b1 =>
    rw [base64Encode]
    simp only [List.length_cons, List.length_nil, List.length_singleton]
  | case3 b1 b2 =>
    rw [base64Encode]
    simp only [List.length_cons, List.length_nil, List.length_singleton]
  | case4 b1 b2 b3 t ih =>
    rw [base64Encode]
    simp only [List.length_append, List.length_cons, List.length_nil]
    rw [ih]
    omega

theorem utf8Encode_append (a b : List Char) :
    utf8Encode (a ++ b) = utf8Encode a ++ utf8Encode b := by
  simp [utf8Encode]

theorem utf8EncodeChar_length_pos (c : Char) : 1 ≤ (utf8EncodeChar c).length := by
  rw [utf8EncodeChar]
  repeat' split
  all_goals simp

theorem utf8Encode_length_ge : ∀ s : List Char, s.length ≤ (utf8Encode s).length := by
  intro s
  induction s with
  | nil => simp [utf8Encode]
  | cons c t ih =>
    rw [show utf8Encode (c :: t) = utf8EncodeChar c ++ utf8Encode t from rfl]
    simp only [List.length_append, List.length_cons]
    have := utf8EncodeChar_length_pos c
    omega

/-- The encoded rendered document is never the encoded raw body: the
document's byte length exceeds the body's by at least the front matter. -/
theorem base64_renderedDoc_ne_body (t a c l b : List Char) :
    base64Encode (utf8Encode (renderedDoc t a c l b)) ≠
      base64Encode (utf8Encode b) := by
  intro heq
  have hlen := congrArg List.length heq
  rw [base64Encode_length, base64Encode_length] at hlen
  have hdoc : (utf8Encode b).length + 24 ≤
      (utf8Encode (renderedDoc t a c l b)).length := by
    rw [renderedDoc]
    simp only [utf8Encode_append, List.length_append]
    have h1 : (utf8Encode (str "---\nlayout: post\ntitle: ")).length = 24 := by
      decide
    omega
  omega

/-- C5 (confirmed): on a matched closed, reviewer-assigned issue the
handler issues exactly one file-commit request carrying the base64-encoded
rendered document — for clean field values, the front-matter block with
the five fixed keys, a blank line, then the body verbatim, which differs
from the encoding of the raw body — at the deterministic path
`public/collections/stories/{category}/{slug}.md`, then the label update. -/
theorem claimC5 (d : IssueData) (c l : List Char)
    (hstate : d.state = str "closed")
    (hrev : isReviewerPresence d.assignees = true)
    (hfind : findMetaphor d.labels = some (c, l))
    (ht : '{' ∉ d.title) (hl : '{' ∉ d.login) (hcr : '{' ∉ d.created_at)
    (hg : '{' ∉ l) (hb : '{' ∉ d.body)
    (st : '$' ∉ d.title) (sl : '$' ∉ d.login) (scr : '$' ∉ d.created_at)
    (sg : '$' ∉ l) (sb : '$' ∉ d.body) :
    storyGeneratorEffects d =
      [Effect.commit
          (str "public/collections/stories/" ++ l ++ str "/" ++
            slugify d.title ++ str ".md")
          (base64Encode (utf8Encode
            (renderedDoc d.title d.login d.created_at l d.body)))
          (str "docs(generate): new metaphor from @" ++ d.login),
        Effect.addLabels (d.labels ++ [str "published"])] ∧
    base64Encode (utf8Encode
        (renderedDoc d.title d.login d.created_at l d.body)) ≠
      base64Encode (utf8Encode d.body) := by
  have hfind2 : List.find? (fun p => matchesCategory p.1 d.labels) metaphors =
      some (c, l) := hfind
  constructor
  · have hiso : isMetaphor d.labels = true := by
      rw [isMetaphor]
      rw [List.any_eq_true]
      exact ⟨(c, l), List.mem_of_find?_eq_some hfind2,
        by simpa using List.find?_some hfind2⟩
    rw [storyGeneratorEffects, if_pos (by simp [hstate, hrev]), if_pos hiso,
      findMetaphor, hfind2]
    simp only [commitEffect, storyPath, commitMessage]
    rw [replacedTemplate_clean d l ht hl hcr hg hb st sl scr sg sb]
    simp [List.append_assoc]
  · exact base64_renderedDoc_ne_body d.title d.login d.created_at l d.body

/-- Witness for C5: the spec's end-to-end scenario issue. -/
theorem claimC5_witness :
    storyGeneratorEffects
      ⟨str "A Tale of Borrow Checker", str "someone", str "2024-01-01",
        str "Once upon a compile...", [str "metaphore", str "rust"],
        [str "darkterminal"], str "closed"⟩ =
      [Effect.commit
          (str "public/collections/stories/" ++ str "rust" ++ str "/" ++
            slugify (str "A Tale of Borrow Checker") ++ str ".md")
          (base64Encode (utf8Encode
            (renderedDoc (str "A Tale of Borrow Checker") (str "someone")
              (str "2024-01-01") (str "rust") (str "Once upon a compile..."))))
          (str "docs(generate): new metaphor from @" ++ str "someone"),
        Effect.addLabels ([str "metaphore", str "rust"] ++ [str "published"])] ∧
    base64Encode (utf8Encode
        (renderedDoc (str "A Tale of Borrow Checker") (str "someone")
          (str "2024-01-01") (str "rust") (str "Once upon a compile..."))) ≠
      base64Encode (utf8Encode (str "Once upon a compile...")) :=
  claimC5
    ⟨str "A Tale of Borrow Checker", str "someone", str "2024-01-01",
      str "Once upon a compile...", [str "metaphore", str "rust"],
      [str "darkterminal"], str "closed"⟩
    (str "rust") (str "rust") rfl (by decide) (by decide)
    (by decide) (by decide) (by decide) (by decide) (by decide)
    (by decide) (by decide) (by decide) (by decide) (by decide)

/-- C8 (confirmed): the router dispatches on the payload's action —
`closed` invokes the story handler, `opened` the greeting handler, and any
other action invokes no handler and marks the run failed via
`core.setFailed('No action, skipping!')`, without any exception. -/
theorem claimC8 :
    route (str "closed") = ⟨some Handler.storyGenerator, none⟩ ∧
    route (str "opened") = ⟨some Handler.greetingContributor, none⟩ ∧
    (∀ action : List Char, action ≠ str "closed" → action ≠ str "opened" →
      route action = ⟨none, some (str "No action, skipping!")⟩) := by
  refine ⟨by decide, by decide, ?_⟩
  intro a h1 h2
  rw [route, if_neg (by simpa using h1), if_neg (by simpa using h2)]

/-- Witness for C8 at the unrecognized action `edited`. -/
theorem claimC8_witness :
    route (str "edited") = ⟨none, some (str "No action, skipping!")⟩ :=
  claimC8.2.2 (str "edited") (by decide) (by decide)

/-- C9 counterexample: a fetch failure (`ECONNRESET`) on the `closed` path
leaves the run with success status — the story handler's own catch
swallows the error and returns `false` — refuting the claim that every
API failure yields a failed run reporting the exception's message. -/
theorem claimC9_counterexample :
    indexRun (str "closed") (Except.error (str "ECONNRESET")) =
      ([], RunStatus.success) := by
  decide

/-- C9 (amended): API failures raised during the issue fetch are caught
inside the story handler itself, which logs and returns `false`; the run
then completes with success status — only errors escaping the handlers
would reach the top-level catch. -/
theorem claimC9 (e : List Char) :
    storyGeneratorRun (Except.error e) = ([], some false) ∧
    indexRun (str "closed") (Except.error e) = ([], RunStatus.success) :=
  ⟨rfl, rfl⟩

end ActionCollections
